import Mathlib

set_option maxRecDepth 8000

/-!
Verification development for the PDF++ annotation targeting and creation engine
(shift-hover manager, destination decoding, wikilink resolution, and the
annotation-creation pipeline of the annotation write library).

Conventions of the shallow embedding:
* JavaScript numbers are modelled as rationals.  Square roots are irrational in
  general, so every candidate distance is stored as the SQUARE of the metric the
  code computes (squared Euclidean distance, squared single-axis absolute
  difference, and 0 for a containing candidate).  Squaring is a strictly
  monotone bijection on the nonnegative values being compared, so every
  comparison the code performs is preserved; the missing-coordinates case
  (JavaScript Infinity) is modelled as `none`, which compares greater than any
  finite value and equal to itself (the ECMAScript sort treats a NaN comparator
  result as 0, keeping the stable order).
* JavaScript `Array.prototype.sort` is stable; it is modelled by a stable
  insertion sort parameterized by the comparator.
* `parseFloat` is modelled by `jsParseFloat` (optional sign, decimal digits,
  optional fraction and exponent, prefix semantics, `none` for NaN); literal
  "Infinity" values are outside the rational model.
* DOM state (annotation elements, datasets, highlight marks) is modelled by
  explicit state records.
-/

/-! ### Nearest-annotation resolver (ShiftHoverManager.findClosestAnnotationToOffset) -/

/-- A candidate annotation as supplied by pdf.js: an id, a subtype string, and
an optional raw rect array.  The code checks `Array.isArray(annot.rect) &&
annot.rect.length >= 4` before use. -/
structure Annot where
  id : String
  subtype : String
  rect : Option (List ℚ)
deriving DecidableEq

/-- The target offset: each of `left`/`top` may be undefined. -/
structure Offset where
  left : Option ℚ
  top : Option ℚ
deriving DecidableEq

/-- The text-markup subtypes preferred by the resolver
(`const textMarkupSubtypes = ['Highlight', 'Underline', 'Squiggly', 'StrikeOut']`). -/
def textMarkupSubtypes : List String := ["Highlight", "Underline", "Squiggly", "StrikeOut"]

/-- The rect validity check of the resolver loop: `annot.rect` must be an array
with at least four components (`!annot.rect || !Array.isArray(annot.rect) ||
annot.rect.length < 4` skips the candidate); the first four components are
destructured as `[left, bottom, right, top]`. -/
def validRect (a : Annot) : Option (ℚ × ℚ × ℚ × ℚ) :=
  match a.rect with
  | some (l :: b :: r :: t :: _) => some (l, b, r, t)
  | _ => none

/-- A candidate record as pushed by the resolver loop
(`{ id, distance, isTextMarkup, containsPoint, subtype }`).  The `distance`
field stores the square of the distance the code computes (`none` = Infinity);
see the header comment. -/
structure Cand where
  id : String
  subtype : String
  distance : Option ℚ
  isTextMarkup : Bool
  containsPoint : Bool
deriving DecidableEq

/-- The per-candidate metric computation of the resolver loop: containment is
checked only when both target coordinates are defined (inclusive of the rect's
edges, distance 0); otherwise the (squared) Euclidean distance to the rect
center when both coordinates are defined, the (squared) single-axis difference
when exactly one is defined, and Infinity (`none`) when neither is. -/
def metricsOf (offset : Offset) (a : Annot) (r4 : ℚ × ℚ × ℚ × ℚ) : Cand :=
  let l := r4.1
  let b := r4.2.1
  let r := r4.2.2.1
  let t := r4.2.2.2
  let centerX := (l + r) / 2
  let centerY := (t + b) / 2
  let itm := textMarkupSubtypes.contains a.subtype
  match offset.left, offset.top with
  | some x, some y =>
    if l ≤ x ∧ x ≤ r ∧ b ≤ y ∧ y ≤ t then
      ⟨a.id, a.subtype, some 0, itm, true⟩
    else
      ⟨a.id, a.subtype, some ((x - centerX) ^ 2 + (y - centerY) ^ 2), itm, false⟩
  | _, some y => ⟨a.id, a.subtype, some ((y - centerY) ^ 2), itm, false⟩
  | some x, none => ⟨a.id, a.subtype, some ((x - centerX) ^ 2), itm, false⟩
  | none, none => ⟨a.id, a.subtype, none, itm, false⟩

/-- The accumulation loop of the resolver: candidates with an invalid rect are
skipped; sticky notes (subtype `Text`) go to the second list
(`textAnnotationCandidates`), everything else to the first (`candidates`),
each in input order. -/
def collectCands (offset : Offset) : List Annot → List Cand × List Cand
  | [] => ([], [])
  | a :: rest =>
    let acc := collectCands offset rest
    match validRect a with
    | none => acc
    | some r4 =>
      let c := metricsOf offset a r4
      if a.subtype = "Text" then (acc.1, c :: acc.2) else (c :: acc.1, acc.2)

/-- Comparison of stored distances: both Infinity compare equal (the ECMAScript
sort treats the NaN of `Infinity - Infinity` as 0), Infinity is greater than
any finite value, and finite values compare numerically (`a.distance -
b.distance`). -/
def cmpDist : Option ℚ → Option ℚ → Ordering
  | none, none => .eq
  | none, some _ => .gt
  | some _, none => .lt
  | some a, some b => if a < b then .lt else if b < a then .gt else .eq

/-- The comparator of the main candidate sort: containing candidates first,
then text-markup candidates, then by distance. -/
def candCmp (a b : Cand) : Ordering :=
  if a.containsPoint ≠ b.containsPoint then (if a.containsPoint then .lt else .gt)
  else if a.isTextMarkup ≠ b.isTextMarkup then (if a.isTextMarkup then .lt else .gt)
  else cmpDist a.distance b.distance

/-- The comparator of the sticky-note fallback sort: containing candidates
first, then by distance. -/
def textCmp (a b : Cand) : Ordering :=
  if a.containsPoint ≠ b.containsPoint then (if a.containsPoint then .lt else .gt)
  else cmpDist a.distance b.distance

/-- Stable insertion of an element into a sorted list: the element goes before
the first entry it does not compare greater than, matching the stable
ECMAScript sort. -/
def insertC (cmp : Cand → Cand → Ordering) (x : Cand) : List Cand → List Cand
  | [] => [x]
  | y :: ys => if cmp x y = .gt then y :: insertC cmp x ys else x :: y :: ys

/-- Stable insertion sort by a comparator, modelling `Array.prototype.sort`. -/
def sortC (cmp : Cand → Cand → Ordering) : List Cand → List Cand
  | [] => []
  | x :: xs => insertC cmp x (sortC cmp xs)

/-- The resolver `findClosestAnnotationToOffset`, from the list of page
annotations onward: empty input returns null; non-`Text` candidates are sorted
with `candCmp` and the first id returned; if there are none, the `Text`
candidates are sorted with `textCmp` as a fallback; null if both are empty. -/
def findClosestAnnotationToOffset (annots : List Annot) (offset : Offset) : Option String :=
  if annots.isEmpty then none
  else
    let acc := collectCands offset annots
    if acc.1.isEmpty then
      match sortC textCmp acc.2 with
      | [] => none
      | c :: _ => some c.id
    else
      match sortC candCmp acc.1 with
      | [] => none
      | c :: _ => some c.id

/-! #### Specification-side resolver (from the claim's wording) -/

/-- The metric records of all candidates having a valid 4-component rect, in
input order (an array with more than four components supplies its first four). -/
def validCands (annots : List Annot) (offset : Offset) : List Cand :=
  annots.filterMap (fun a => (validRect a).map (metricsOf offset a))

/-- The note-like partition: sticky notes (subtype `Text`). -/
def noteCands (annots : List Annot) (offset : Offset) : List Cand :=
  (validCands annots offset).filter (fun c => c.subtype == "Text")

/-- The markup-like partition: every subtype other than the sticky-note
subtype `Text`. -/
def markupCands (annots : List Annot) (offset : Offset) : List Cand :=
  (validCands annots offset).filter (fun c => c.subtype != "Text")

/-- Descending comparison on booleans: `true` sorts before `false`. -/
def descBool : Bool → Bool → Ordering
  | true, false => .lt
  | false, true => .gt
  | _, _ => .eq

/-- The lexicographic sort key of the claim: `containsPoint` descending, then
`isTextMarkupSubtype` descending, then distance ascending. -/
def specCmp (a b : Cand) : Ordering :=
  (descBool a.containsPoint b.containsPoint).then
    ((descBool a.isTextMarkup b.isTextMarkup).then (cmpDist a.distance b.distance))

/-- The resolver algorithm exactly as the claim prescribes it: exclude invalid
rects, select the markup-like partition if non-empty and otherwise the
note-like partition, order the chosen partition by the lexicographic key and
return the first id, null if the chosen partition is empty. -/
def findClosestSpec (annots : List Annot) (offset : Offset) : Option String :=
  let chosen :=
    if (markupCands annots offset).isEmpty then noteCands annots offset
    else markupCands annots offset
  match sortC specCmp chosen with
  | [] => none
  | c :: _ => some c.id

/-! ### Destination decoding (ShiftHoverManager.resolveInternalLink / resolveWikilink) -/

/-- Leftmost-match search for a key followed by at least one character accepted
by `ok`, returning the maximal accepted run after the key.  This models the
unanchored JavaScript regexes `/key=([...]+)/`: the pattern may match anywhere
in the string, and a position where the literal occurs but no accepted
character follows is not a match. -/
def findKeyAux (key : List Char) (ok : Char → Bool) : List Char → Option (List Char)
  | [] => none
  | c :: rest =>
    if key.isPrefixOf (c :: rest) then
      let cap := ((c :: rest).drop key.length).takeWhile ok
      if cap.isEmpty then findKeyAux key ok rest else some cap
    else findKeyAux key ok rest

/-- Decimal value of a digit list (the value `parseInt` assigns to a `\d+`
capture; the model is arbitrary-precision). -/
def digitsVal (l : List Char) : ℕ :=
  l.foldl (fun n c => 10 * n + (c.toNat - 48)) 0

/-- The `/#page=(\d+)/` match of `resolveInternalLink`, as a page number. -/
def matchPageIL (s : String) : Option ℕ :=
  (findKeyAux "#page=".data Char.isDigit s.data).map digitsVal

/-- The `/page=(\d+)/` match of `resolveWikilink` (no leading hash), as a page
number. -/
def matchPageWiki (s : String) : Option ℕ :=
  (findKeyAux "page=".data Char.isDigit s.data).map digitsVal

/-- The `/annotation=([^&]+)/` match. -/
def matchAnnot (s : String) : Option String :=
  (findKeyAux "annotation=".data (fun c => c ≠ '&') s.data).map String.mk

/-- The raw `/offset=([^&]+)/` capture. -/
def matchOffsetRaw (s : String) : Option String :=
  (findKeyAux "offset=".data (fun c => c ≠ '&') s.data).map String.mk

/-- The raw `/rect=([^&]+)/` capture. -/
def matchRectRaw (s : String) : Option String :=
  (findKeyAux "rect=".data (fun c => c ≠ '&') s.data).map String.mk

/-- The exponent part of a JavaScript float literal after `e`/`E`: optional
sign then digits; an exponent without digits contributes nothing (prefix
parsing stops before the `e`, leaving the mantissa value unchanged, which the
factor `10 ^ 0` models). -/
def expPart (r : List Char) : ℤ :=
  match r with
  | '+' :: d => (digitsVal (d.takeWhile Char.isDigit) : ℤ)
  | '-' :: d => -(digitsVal (d.takeWhile Char.isDigit) : ℤ)
  | d => (digitsVal (d.takeWhile Char.isDigit) : ℤ)

/-- JavaScript `parseFloat` on the rational model: skip leading whitespace,
optional sign, decimal digits with optional fraction and exponent, prefix
semantics (parsing stops at the first invalid character), `none` for NaN
(no digits at all).  Literal `Infinity` inputs are outside the model. -/
def jsParseFloat (s : String) : Option ℚ :=
  let cs := s.data.dropWhile (fun c => c = ' ' ∨ c = '\t' ∨ c = '\n' ∨ c = '\r')
  let signed : ℚ × List Char :=
    match cs with
    | '+' :: r => (1, r)
    | '-' :: r => (-1, r)
    | _ => (1, cs)
  let ip := signed.2.takeWhile Char.isDigit
  let cs2 := signed.2.dropWhile Char.isDigit
  let fp :=
    match cs2 with
    | '.' :: r => r.takeWhile Char.isDigit
    | _ => []
  let cs3 :=
    match cs2 with
    | '.' :: r => r.dropWhile Char.isDigit
    | _ => cs2
  if ip.isEmpty ∧ fp.isEmpty then none
  else
    let mant : ℚ := (digitsVal ip : ℚ) + (digitsVal fp : ℚ) / (10 : ℚ) ^ fp.length
    let ex : ℤ :=
      match cs3 with
      | 'e' :: r => expPart r
      | 'E' :: r => expPart r
      | _ => 0
    some (signed.1 * mant * (10 : ℚ) ^ ex)

/-- Offset-value parsing: split the capture at commas, trim the first two
components, parse each nonempty one with `parseFloat`, and keep the offset only
if at least one component is a number (`left !== undefined && !isNaN(left) ||
top !== undefined && !isNaN(top)`). -/
def parseOffsetVal (raw : String) : Option Offset :=
  let parts := raw.splitOn ","
  let pick : Option String → Option ℚ := fun o =>
    match o with
    | some p => let t := p.trim; if t = "" then none else jsParseFloat t
    | none => none
  let l := pick (parts.get? 0)
  let t := pick (parts.get? 1)
  if l.isSome ∨ t.isSome then some ⟨l, t⟩ else none

/-- Rect-value parsing: split the capture at commas, trim and `parseFloat`
each component, and keep the rect only when there are exactly four components
and none is NaN. -/
def parseRectVal (raw : String) : Option (ℚ × ℚ × ℚ × ℚ) :=
  let parts := (raw.splitOn ",").map (fun s => jsParseFloat s.trim)
  match parts with
  | [some a, some b, some c, some d] => some (a, b, c, d)
  | _ => none

/-- A decoded destination record (the non-file part of the resolver results). -/
structure DestRec where
  page : ℕ
  annotId : Option String
  offset : Option Offset
  rect : Option (ℚ × ℚ × ℚ × ℚ)
deriving DecidableEq

/-- The decoding core of `resolveInternalLink`, from the subpath string
returned by the destination-conversion collaborator onward: a missing
`#page=<digits>` match fails the decode; the annotation, offset and rect
fields are each optional and degrade to absent independently. -/
def resolveILCore (s : String) : Option DestRec :=
  match matchPageIL s with
  | none => none
  | some p => some ⟨p, matchAnnot s, (matchOffsetRaw s).bind parseOffsetVal,
      (matchRectRaw s).bind parseRectVal⟩

/-! ### Wikilink resolution (ShiftHoverManager.resolveWikilink) -/

/-- JavaScript `url.slice(k, -2)`: drop the last two characters, then the
first `k`. -/
def jsSliceNeg2 (s : String) (k : ℕ) : String :=
  String.mk ((s.data.take (s.data.length - 2)).drop k)

/-- The bracketed link text: `url.slice(3, -2)` for an embed (`![[`), else
`url.slice(2, -2)`. -/
def wikiLinktext (url : String) : String :=
  let k := if url.data.take 3 = ['!', '[', '['] then 3 else 2
  jsSliceNeg2 url k

/-- JavaScript `indexOf` as an optional index. -/
def jsIndexOfAux (p : Char → Bool) : List Char → Option ℕ
  | [] => none
  | c :: r => if p c then some 0 else (jsIndexOfAux p r).map (· + 1)

/-- The path/subpath split of `resolveWikilink`: split at the first `#` only
when its index is positive (`hashIndex > 0`); otherwise the whole text is the
path and the subpath is empty. -/
def wikiSplit (linktext : String) : String × String :=
  match jsIndexOfAux (fun c => c = '#') linktext.data with
  | some i =>
    if 0 < i then (String.mk (linktext.data.take i), String.mk (linktext.data.drop i))
    else (linktext, "")
  | none => (linktext, "")

/-- The file path `resolveWikilink` passes to the path-resolution
collaborator. -/
def wikiFilePathOf (url : String) : String := (wikiSplit (wikiLinktext url)).1

/-- The subpath `resolveWikilink` decodes. -/
def wikiSubpathOf (url : String) : String := (wikiSplit (wikiLinktext url)).2

/-- A resolved wikilink target (file path plus destination fields). -/
structure WikiTarget where
  file : String
  page : ℕ
  annotId : Option String
  offset : Option Offset
  rect : Option (ℚ × ℚ × ℚ × ℚ)
deriving DecidableEq

/-- The subpath decoding of `resolveWikilink`: `/page=(\d+)/` with a default
page of 1, plus the optional annotation, offset and rect fields. -/
def decodeWikiSubpath (file : String) (sub : String) : WikiTarget :=
  ⟨file, (matchPageWiki sub).getD 1, matchAnnot sub,
    (matchOffsetRaw sub).bind parseOffsetVal, (matchRectRaw sub).bind parseRectVal⟩

/-- The resolver `resolveWikilink`, with the path-resolution collaborator
(`app.metadataCache.getFirstLinkpathDest` relative to the context file)
abstracted as a function from path strings to optional resolved file paths:
strip the brackets, split path and subpath, resolve the path, return null for
a dangling link, and decode the subpath otherwise. -/
def resolveWikilink (resolveFile : String → Option String) (url : String) : Option WikiTarget :=
  match resolveFile (wikiFilePathOf url) with
  | none => none
  | some file => some (decodeWikiSubpath file (wikiSubpathOf url))

/-- Modelled from the claim's words for C5: the bracketed text is split into
path and subpath at the first occurrence of `#`, wherever it occurs (including
index 0). -/
def wikiSplitSpec (linktext : String) : String × String :=
  match jsIndexOfAux (fun c => c = '#') linktext.data with
  | some i => (String.mk (linktext.data.take i), String.mk (linktext.data.drop i))
  | none => (linktext, "")

/-- The wikilink resolver as the claim describes it, differing from
`resolveWikilink` only in using the split of `wikiSplitSpec`. -/
def resolveWikilinkSpec (resolveFile : String → Option String) (url : String) : Option WikiTarget :=
  let ps := wikiSplitSpec (wikiLinktext url)
  match resolveFile ps.1 with
  | none => none
  | some file => some (decodeWikiSubpath file ps.2)

/-! ### Annotation creation pipeline (AnnotationWriteFileLib.addAnnotationToTextRange) -/

/-- A merged-rect result entry produced by the highlight-geometry collaborator
(`computeMergedHighlightRects` returns objects whose `rect` field is used). -/
structure RectEntry where
  rect : ℚ × ℚ × ℚ × ℚ
deriving DecidableEq

/-- The page-view state the pipeline reads: whether `pageView.textLayer` is
present, the `pageView.div.dataset.loaded` string (checked for truthiness),
and the result of the external `getTextLayerInfo` utility on this page's text
layer (an opaque token when available). -/
structure PageViewM where
  hasTextLayer : Bool
  loaded : Option String
  textLayerInfo : Option ℕ

/-- The viewer-child state the pipeline reads: the open file (if any), the
page count, and the per-page view lookup (`child.getPage`). -/
structure ChildM where
  file : Option String
  pagesCount : ℤ
  getPage : ℤ → Option PageViewM

/-- The value `addAnnotationToTextRange` returns on reaching the annotator
call: the annotation id (undefined when the annotator threw) and the computed
rects. -/
structure AddResult where
  annotId : Option String
  rects : List (ℚ × ℚ × ℚ × ℚ)
deriving DecidableEq

/-- One call made to the annotator, with the arguments it received. -/
structure AnnotCall where
  file : String
  page : ℤ
  rects : List (ℚ × ℚ × ℚ × ℚ)
deriving DecidableEq

/-- The observable outcome of one pipeline run: the returned value (`none`
models returning `undefined`), the calls made to the annotator with their
arguments, and the number of user notices shown. -/
structure PipeOut where
  result : Option AddResult
  annotCalls : List AnnotCall
  noticeCount : ℕ
deriving DecidableEq

/-- JavaScript truthiness of an optional string (`pageView.div.dataset.loaded`
is truthy iff present and non-empty). -/
def truthyStr : Option String → Bool
  | none => false
  | some s => s != ""

/-- The pipeline `addAnnotationToTextRange`: abort (returning `undefined`)
unless the child has a file, the page number is within `[1, pagesCount]`, the
page view exists with a text layer and a truthy `loaded` marker, and text-layer
info is available; then compute the merged rects via the geometry collaborator
and call the annotator inside a try/catch that converts a thrown error into a
user notice and an undefined annotation id. -/
def addAnnotationToTextRange
    (annotator : String → ℤ → List (ℚ × ℚ × ℚ × ℚ) → Except String String)
    (computeRects : ℕ → ℤ → ℤ → ℤ → ℤ → List RectEntry)
    (child : ChildM) (pageNumber beginIdx beginOff endIdx endOff : ℤ) : PipeOut :=
  match child.file with
  | none => ⟨none, [], 0⟩
  | some file =>
    if 1 ≤ pageNumber ∧ pageNumber ≤ child.pagesCount then
      match child.getPage pageNumber with
      | some pv =>
        if pv.hasTextLayer && truthyStr pv.loaded then
          match pv.textLayerInfo with
          | some tli =>
            let rects := (computeRects tli beginIdx beginOff endIdx endOff).map RectEntry.rect
            match annotator file pageNumber rects with
            | .ok id => ⟨some ⟨some id, rects⟩, [⟨file, pageNumber, rects⟩], 0⟩
            | .error _ => ⟨some ⟨none, rects⟩, [⟨file, pageNumber, rects⟩], 1⟩
          | none => ⟨none, [], 0⟩
        else ⟨none, [], 0⟩
      | none => ⟨none, [], 0⟩
    else ⟨none, [], 0⟩

/-- The registration guard of `addLinkAnnotationToSelection`: the registration
step is entered only when a result came back with an annotation id
(`if (result && result.child && result.annotationID)`); counts entries. -/
def registrationAttempts (out : PipeOut) : ℕ :=
  match out.result with
  | some r => match r.annotId with
    | some _ => 1
    | none => 0
  | none => 0

/-! ### Post-processor registration (registerPostProcessorForNewAnnotation) -/

/-- A link destination: an explicit destination array or a string. -/
inductive DestM where
  | arr : List ℚ → DestM
  | str : String → DestM
deriving DecidableEq

/-- The registration-relevant state of the new annotation's live element: does
the element exist in the current annotation layer, the value of its
`dataset.pdfPlusIsAnnotationPostProcessed` marker, and how many times the
side-effecting registration has run. -/
structure RegState where
  elemExists : Bool
  marker : Option String
  regCount : ℕ
deriving DecidableEq

/-- The marker check of the immediate path
(`dataset.pdfPlusIsAnnotationPostProcessed !== 'true'`, negated). -/
def markerIsTrue (s : RegState) : Bool := s.marker == some "true"

/-- The registration side effect as the immediate path performs it:
`PDFExternalLinkPostProcessor.registerEvents` / `onload`
(src/post-process/external-link.ts) attach the click and hover handlers but
never write `dataset.pdfPlusIsAnnotationPostProcessed` — no code under src/
writes that marker; it is only read by the immediate path's guard. -/
def registerEventsReg (s : RegState) : RegState :=
  { s with regCount := s.regCount + 1 }

/-- The wikilink test of the immediate path (`dest.startsWith('[[')`). -/
def startsWikilink (d : String) : Bool := d.data.take 2 == ['[', '[']

/-- The immediate registration attempt of
`registerPostProcessorForNewAnnotation`: requires an annotation id, a string
destination starting with `[[`, a present annotation layer, a live annotation
element, and a marker different from `'true'`; otherwise it is a no-op.
Registration itself (`registerEventsReg`) leaves the marker unchanged. -/
def immediateReg (annotId : Option String) (dest : DestM) (hasLayerDiv : Bool)
    (s : RegState) : RegState :=
  match annotId with
  | none => s
  | some _ =>
    match dest with
    | .arr _ => s
    | .str d =>
      if startsWikilink d then
        if hasLayerDiv then
          if s.elemExists && !markerIsTrue s then registerEventsReg s else s
        else s
      else s

/-- Modelled from the spec: the deferred registration (the
`annotationlayerrendered` handler in pdf-internals.ts, not under src/)
registers the post-processor once the layer renders unless the per-element
marker shows the element already post-processed, and marks the element it
registers (4.5: "registering twice is a no-op, detected via a per-element
marker"). -/
def deferredReg (s : RegState) : RegState :=
  if s.elemExists && !markerIsTrue s then
    { s with regCount := s.regCount + 1, marker := some "true" }
  else s

/-! ### Shift-hover highlight state (ShiftHoverManager highlight methods) -/

/-- The highlight-relevant state: the tracked `currentHighlight` element and
the set of elements currently carrying a highlight (a class or a created
location div), as a list. -/
structure HLState where
  current : Option ℕ
  marks : List ℕ
deriving DecidableEq

/-- The method `clearHighlight`: when a highlight is tracked, remove its class
and its element (`removeClass` + `remove()`) and reset the tracked state to
null; otherwise do nothing. -/
def clearHighlight (s : HLState) : HLState :=
  match s.current with
  | some e => ⟨none, s.marks.erase e⟩
  | none => s

/-- The method `highlightAnnotation`: clear the current highlight first; then,
if the annotation layer and the queried annotation element exist (`found`),
add the highlight class and track the element; otherwise stop after the
clear. -/
def highlightAnnot (found : Option ℕ) (s : HLState) : HLState :=
  let cleared := clearHighlight s
  match found with
  | some e => ⟨some e, e :: cleared.marks⟩
  | none => cleared

/-- The method `highlightLocation`: clear the current highlight first; then,
if the page view and its div exist, create a fresh highlight element
(`newElem`) and track it; otherwise stop after the clear. -/
def highlightLocation (pageOk : Bool) (newElem : ℕ) (s : HLState) : HLState :=
  let cleared := clearHighlight s
  if pageOk then ⟨some newElem, newElem :: cleared.marks⟩ else cleared

/-- A highlight operation, for reasoning about arbitrary call sequences. -/
inductive HLOp where
  | annot : Option ℕ → HLOp
  | loc : Bool → ℕ → HLOp
  | clear : HLOp
deriving DecidableEq

/-- One step of the highlight state machine. -/
def hlStep (s : HLState) (op : HLOp) : HLState :=
  match op with
  | .annot found => highlightAnnot found s
  | .loc pageOk newElem => highlightLocation pageOk newElem s
  | .clear => clearHighlight s

/-- Run a sequence of highlight operations from the initial state (no tracked
highlight, no marked elements). -/
def runHL (ops : List HLOp) : HLState :=
  ops.foldl hlStep ⟨none, []⟩

/-- The single-highlight invariant: either nothing is tracked and nothing is
marked, or exactly the tracked element is marked. -/
def hlInv (s : HLState) : Prop :=
  (s.current = none ∧ s.marks = []) ∨ (∃ e, s.current = some e ∧ s.marks = [e])

/-- The per-candidate metric contract of claim C3, for a candidate with rect
components `l, b, r, t`: containment holds iff both target coordinates are
defined and the point lies within the rect inclusive of its edges; the stored
distance is 0 under containment, the square of the Euclidean distance to the
rect center when both coordinates are defined, and the square of the
single-axis absolute difference when exactly one is (squares encode the
metric order-faithfully; see the header comment). -/
def containsDistSpec (offset : Offset) (c : Cand) (l b r t : ℚ) : Prop :=
  (c.containsPoint = true ↔
    ∃ x y, offset.left = some x ∧ offset.top = some y ∧
      l ≤ x ∧ x ≤ r ∧ b ≤ y ∧ y ≤ t) ∧
  (c.containsPoint = true → c.distance = some 0) ∧
  (∀ x y, offset.left = some x → offset.top = some y → c.containsPoint = false →
    c.distance = some ((x - (l + r) / 2) ^ 2 + (y - (t + b) / 2) ^ 2)) ∧
  (∀ y, offset.left = none → offset.top = some y →
    c.distance = some ((y - (t + b) / 2) ^ 2)) ∧
  (∀ x, offset.left = some x → offset.top = none →
    c.distance = some ((x - (l + r) / 2) ^ 2))

/-! ## Lemmas and theorems -/

/-! ### Resolver lemmas -/

lemma metricsOf_id (offset : Offset) (a : Annot) (r4 : ℚ × ℚ × ℚ × ℚ) :
    (metricsOf offset a r4).id = a.id := by
  rcases offset with ⟨ol, ot⟩
  unfold metricsOf
  cases ol <;> cases ot <;> dsimp only <;> first | rfl | (split <;> rfl)

lemma metricsOf_subtype (offset : Offset) (a : Annot) (r4 : ℚ × ℚ × ℚ × ℚ) :
    (metricsOf offset a r4).subtype = a.subtype := by
  rcases offset with ⟨ol, ot⟩
  unfold metricsOf
  cases ol <;> cases ot <;> dsimp only <;> first | rfl | (split <;> rfl)

lemma metricsOf_isTextMarkup (offset : Offset) (a : Annot) (r4 : ℚ × ℚ × ℚ × ℚ) :
    (metricsOf offset a r4).isTextMarkup = textMarkupSubtypes.contains a.subtype := by
  rcases offset with ⟨ol, ot⟩
  unfold metricsOf
  cases ol <;> cases ot <;> dsimp only <;> first | rfl | (split <;> rfl)

lemma collectCands_eq (offset : Offset) (annots : List Annot) :
    collectCands offset annots = (markupCands annots offset, noteCands annots offset) := by
  induction annots with
  | nil => rfl
  | cons a rest ih =>
    unfold collectCands
    rw [ih]
    unfold markupCands noteCands validCands
    cases hv : validRect a with
    | none => simp [hv, List.filterMap_cons]
    | some r4 =>
      by_cases hs : a.subtype = "Text" <;>
        simp [hv, hs, List.filterMap_cons, metricsOf_subtype]

lemma candCmp_eq_specCmp (a b : Cand) : candCmp a b = specCmp a b := by
  unfold candCmp specCmp descBool Ordering.then
  cases ha : a.containsPoint <;> cases hb : b.containsPoint <;>
    cases ha2 : a.isTextMarkup <;> cases hb2 : b.isTextMarkup <;> simp

lemma textCmp_eq_specCmp (a b : Cand) (ha : a.isTextMarkup = false)
    (hb : b.isTextMarkup = false) : textCmp a b = specCmp a b := by
  unfold textCmp specCmp descBool Ordering.then
  rw [ha, hb]
  cases hc : a.containsPoint <;> cases hd : b.containsPoint <;> simp

lemma mem_insertC {cmp : Cand → Cand → Ordering} {x y : Cand} {l : List Cand}
    (h : y ∈ insertC cmp x l) : y = x ∨ y ∈ l := by
  induction l with
  | nil => simpa [insertC] using h
  | cons z zs ih =>
    unfold insertC at h
    split at h
    · rcases List.mem_cons.mp h with hz | hrest
      · exact Or.inr (by simp [hz])
      · rcases ih hrest with h1 | h1
        · exact Or.inl h1
        · exact Or.inr (by simp [h1])
    · rcases List.mem_cons.mp h with h1 | h1
      · exact Or.inl h1
      · exact Or.inr h1

lemma mem_sortC {cmp : Cand → Cand → Ordering} {y : Cand} {l : List Cand}
    (h : y ∈ sortC cmp l) : y ∈ l := by
  induction l with
  | nil => simpa [sortC] using h
  | cons x xs ih =>
    unfold sortC at h
    rcases mem_insertC h with h | h
    · simp [h]
    · exact List.mem_cons_of_mem _ (ih h)

lemma insertC_congr {cmp₁ cmp₂ : Cand → Cand → Ordering} {P : Cand → Prop}
    (hc : ∀ a b, P a → P b → cmp₁ a b = cmp₂ a b) (x : Cand) (l : List Cand)
    (hx : P x) (hl : ∀ y ∈ l, P y) : insertC cmp₁ x l = insertC cmp₂ x l := by
  induction l with
  | nil => rfl
  | cons z zs ih =>
    unfold insertC
    rw [hc x z hx (hl z (by simp))]
    split
    · rw [ih (fun y hy => hl y (by simp [hy]))]
    · rfl

lemma sortC_congr {cmp₁ cmp₂ : Cand → Cand → Ordering} {P : Cand → Prop}
    (hc : ∀ a b, P a → P b → cmp₁ a b = cmp₂ a b) (l : List Cand)
    (hl : ∀ y ∈ l, P y) : sortC cmp₁ l = sortC cmp₂ l := by
  induction l with
  | nil => rfl
  | cons x xs ih =>
    unfold sortC
    rw [ih (fun y hy => hl y (by simp [hy]))]
    exact insertC_congr hc x (sortC cmp₂ xs) (hl x (by simp))
      (fun y hy => hl y (List.mem_cons_of_mem _ (mem_sortC hy)))

lemma noteCands_isTextMarkup_false {annots : List Annot} {offset : Offset} {c : Cand}
    (h : c ∈ noteCands annots offset) : c.isTextMarkup = false := by
  unfold noteCands at h
  rcases List.mem_filter.mp h with ⟨hmem, hsub⟩
  unfold validCands at hmem
  rcases List.mem_filterMap.mp hmem with ⟨a, _, ha⟩
  cases hv : validRect a with
  | none => rw [hv] at ha; simp at ha
  | some r4 =>
    rw [hv] at ha
    simp only [Option.map_some'] at ha
    have ha' : metricsOf offset a r4 = c := by simpa using ha
    subst ha'
    rw [metricsOf_isTextMarkup]
    have hsub' : a.subtype = "Text" := by
      have hst := metricsOf_subtype offset a r4
      rw [← hst]
      simpa using hsub
    rw [hsub']
    decide

lemma findClosest_eq_spec (annots : List Annot) (offset : Offset) :
    findClosestAnnotationToOffset annots offset = findClosestSpec annots offset := by
  simp only [findClosestAnnotationToOffset, findClosestSpec, collectCands_eq]
  cases hempty : annots.isEmpty with
  | true =>
    have hnil : annots = [] := List.isEmpty_iff.mp hempty
    subst hnil
    simp [markupCands, noteCands, validCands, sortC]
  | false =>
    cases hm : (markupCands annots offset).isEmpty with
    | true =>
      have hs : sortC textCmp (noteCands annots offset) = sortC specCmp (noteCands annots offset) :=
        sortC_congr (P := fun c => c.isTextMarkup = false)
          (fun a b ha hb => textCmp_eq_specCmp a b ha hb) _
          (fun y hy => noteCands_isTextMarkup_false hy)
      simp [hm, hs]
    | false =>
      have hc : candCmp = specCmp := funext fun a => funext fun b => candCmp_eq_specCmp a b
      simp [hm, hc]

lemma cmpDist_self (d : Option ℚ) : cmpDist d d = .eq := by
  cases d with
  | none => rfl
  | some q => simp [cmpDist]

lemma specCmp_self (c : Cand) : specCmp c c = .eq := by
  unfold specCmp descBool
  cases c.containsPoint <;> cases c.isTextMarkup <;>
    simp [Ordering.then, cmpDist_self]

lemma insertC_cons (cmp : Cand → Cand → Ordering) (x y : Cand) (ys : List Cand) :
    insertC cmp x (y :: ys) =
      if cmp x y = .gt then y :: insertC cmp x ys else x :: y :: ys := rfl

lemma sortC_cons (cmp : Cand → Cand → Ordering) (x : Cand) (xs : List Cand) :
    sortC cmp (x :: xs) = insertC cmp x (sortC cmp xs) := rfl

lemma insertC_min {cmp : Cand → Cand → Ordering} {x : Cand} {l : List Cand}
    (h : ∀ y ∈ l, cmp x y ≠ .gt) : insertC cmp x l = x :: l := by
  cases l with
  | nil => rfl
  | cons z zs =>
    rw [insertC_cons, if_neg (h z (by simp))]

lemma head_sortC_min {cmp : Cand → Cand → Ordering} {l : List Cand} {n : Cand}
    (hmem : n ∈ l) (hself : cmp n n ≠ .gt)
    (hlt : ∀ y ∈ l, y ≠ n → cmp n y ≠ .gt ∧ cmp y n = .gt) :
    ∃ rest, sortC cmp l = n :: rest := by
  induction l with
  | nil => simp at hmem
  | cons x xs ih =>
    by_cases hx : x = n
    · subst hx
      refine ⟨sortC cmp xs, ?_⟩
      rw [sortC_cons]
      refine insertC_min ?_
      intro y hy
      have hyl : y ∈ xs := mem_sortC hy
      by_cases hyn : y = x
      · rw [hyn]; exact hself
      · exact (hlt y (List.mem_cons_of_mem _ hyl) hyn).1
    · have hmem' : n ∈ xs := by
        rcases List.mem_cons.mp hmem with h | h
        · exact absurd h.symm hx
        · exact h
      rcases ih hmem' (fun y hy hne => hlt y (List.mem_cons_of_mem _ hy) hne) with ⟨rest, hrest⟩
      refine ⟨insertC cmp x rest, ?_⟩
      rw [sortC_cons, hrest, insertC_cons, if_pos (hlt x (by simp) hx).2]

lemma insertC_ne_nil (cmp : Cand → Cand → Ordering) (x : Cand) (l : List Cand) :
    insertC cmp x l ≠ [] := by
  cases l with
  | nil => simp [insertC]
  | cons z zs =>
    unfold insertC
    split <;> simp

lemma sortC_head_mem {cmp : Cand → Cand → Ordering} {l : List Cand} (h : l ≠ []) :
    ∃ c rest, sortC cmp l = c :: rest ∧ c ∈ l := by
  cases l with
  | nil => exact absurd rfl h
  | cons x xs =>
    cases hs : sortC cmp (x :: xs) with
    | nil =>
      exact absurd hs (by rw [sortC_cons]; exact insertC_ne_nil cmp x (sortC cmp xs))
    | cons c rest =>
      refine ⟨c, rest, rfl, ?_⟩
      have : c ∈ sortC cmp (x :: xs) := by rw [hs]; simp
      exact mem_sortC this

/-! ### Claim C1 -/

/-- C1: for every list of candidate annotations and every target offset,
`findClosestAnnotationToOffset` returns exactly the id prescribed by the
claim's algorithm: candidates without a valid 4-component rect are excluded,
the markup-like partition (every subtype other than `Text`) is preferred and
the note-like partition is the fallback, the chosen partition is ordered by
the lexicographic key (containsPoint descending, isTextMarkupSubtype
descending, distance ascending) and the first id is returned, with null for an
empty chosen partition. -/
theorem c1_resolver_refinement (annots : List Annot) (offset : Offset) :
    findClosestAnnotationToOffset annots offset = findClosestSpec annots offset :=
  findClosest_eq_spec annots offset

/-! ### Claim C2 -/

/-- C2 (counterexample): a sticky note (`N`) contains the target point, the
text markup candidate (`M`) has a strictly closer center but does not contain
the point, and a non-note candidate exists — yet the resolver returns `M`, not
the sticky note `N`: sticky notes are never selected while any markup-like
candidate exists. -/
theorem c2_counterexample :
    (metricsOf ⟨some 0, some 0⟩ ⟨"N", "Text", some [0, 0, 100, 100]⟩
      (0, 0, 100, 100)).containsPoint = true ∧
    (metricsOf ⟨some 0, some 0⟩ ⟨"M", "Highlight", some [1, 1, 3, 3]⟩
      (1, 1, 3, 3)).containsPoint = false ∧
    ((0 - (1 + 3) / 2 : ℚ) ^ 2 + (0 - (3 + 1) / 2) ^ 2 <
      (0 - (0 + 100) / 2) ^ 2 + (0 - (100 + 0) / 2) ^ 2) ∧
    findClosestAnnotationToOffset
      [⟨"M", "Highlight", some [1, 1, 3, 3]⟩, ⟨"N", "Text", some [0, 0, 100, 100]⟩]
      ⟨some 0, some 0⟩ = some "M" ∧
    some "M" ≠ some ("N" : String) := by
  refine ⟨by with_unfolding_all decide, by with_unfolding_all decide,
    by norm_num, by with_unfolding_all decide, by decide⟩

/-- C2 (amended): while any markup-like candidate exists the resolver returns
a markup-like candidate's id (never a sticky note's, regardless of
containment); and when no markup-like candidates exist at all and the only
containing candidate is a sticky note, that sticky note's id is returned. -/
theorem c2_amended (annots : List Annot) (offset : Offset) :
    (markupCands annots offset ≠ [] →
      ∃ c ∈ markupCands annots offset,
        findClosestAnnotationToOffset annots offset = some c.id) ∧
    (markupCands annots offset = [] →
      ∀ n ∈ noteCands annots offset, n.containsPoint = true →
        (∀ m ∈ noteCands annots offset, m.containsPoint = true → m = n) →
        findClosestAnnotationToOffset annots offset = some n.id) := by
  constructor
  · intro hne
    rw [findClosest_eq_spec]
    obtain ⟨c, rest, hs, hc⟩ := @sortC_head_mem specCmp (markupCands annots offset) hne
    refine ⟨c, hc, ?_⟩
    have hm : (markupCands annots offset).isEmpty = false := by
      cases hm : (markupCands annots offset).isEmpty with
      | true => exact absurd (List.isEmpty_iff.mp hm) hne
      | false => rfl
    simp [findClosestSpec, hm, hs]
  · intro hz n hn hcont huniq
    rw [findClosest_eq_spec]
    have hlt : ∀ y ∈ noteCands annots offset, y ≠ n →
        specCmp n y ≠ .gt ∧ specCmp y n = .gt := by
      intro y hy hne
      have hyc : y.containsPoint = false := by
        cases hyc : y.containsPoint with
        | true => exact absurd (huniq y hy hyc) hne
        | false => rfl
      constructor
      · simp [specCmp, descBool, hcont, hyc, Ordering.then]
      · simp [specCmp, descBool, hcont, hyc, Ordering.then]
    obtain ⟨rest, hrest⟩ := head_sortC_min hn
      (by rw [specCmp_self]; decide) hlt
    have hz' : (markupCands annots offset).isEmpty = true := by
      rw [hz]; rfl
    simp [findClosestSpec, hz', hrest]

/-- C2 (witness): the amended claim applied at concrete inputs: with a markup
candidate present the result is one of the markup candidates; with only a
sticky note that contains the point, that sticky note is returned. -/
theorem c2_amended_witness :
    (∃ c ∈ markupCands
        [⟨"M", "Highlight", some [1, 1, 3, 3]⟩, ⟨"N", "Text", some [0, 0, 100, 100]⟩]
        ⟨some 0, some 0⟩,
      findClosestAnnotationToOffset
        [⟨"M", "Highlight", some [1, 1, 3, 3]⟩, ⟨"N", "Text", some [0, 0, 100, 100]⟩]
        ⟨some 0, some 0⟩ = some c.id) ∧
    findClosestAnnotationToOffset [⟨"N", "Text", some [0, 0, 100, 100]⟩]
      ⟨some 0, some 0⟩ = some "N" := by
  constructor
  · exact (c2_amended _ _).1 (by with_unfolding_all decide)
  · exact (c2_amended [⟨"N", "Text", some [0, 0, 100, 100]⟩] ⟨some 0, some 0⟩).2
      (by with_unfolding_all decide)
      ⟨"N", "Text", some 0, false, true⟩
      (by with_unfolding_all decide)
      (by with_unfolding_all decide)
      (by with_unfolding_all decide)

/-! ### Claim C3 -/

/-- C3: for every candidate with a valid rect and every target offset, the
resolver's per-candidate metrics satisfy the containment/distance contract:
containment iff both coordinates are defined and lie within the rect inclusive
of edges; distance 0 under containment, otherwise the (squared) Euclidean
distance to the rect center when both coordinates are defined, otherwise the
(squared) single-axis absolute difference for the one defined coordinate. -/
theorem c3_metrics_contract (offset : Offset) (a : Annot) (l b r t : ℚ)
    (hv : validRect a = some (l, b, r, t)) :
    containsDistSpec offset (metricsOf offset a (l, b, r, t)) l b r t := by
  clear hv
  rcases offset with ⟨ol, ot⟩
  unfold containsDistSpec metricsOf
  cases ol with
  | none =>
    cases ot with
    | none => simp
    | some y => simp
  | some x =>
    cases ot with
    | none => simp
    | some y =>
      dsimp only
      split
      case isTrue hin =>
        obtain ⟨h1, h2, h3, h4⟩ := hin
        refine ⟨?_, by simp, by simp, by simp, by simp⟩
        constructor
        · intro _; exact ⟨x, y, rfl, rfl, h1, h2, h3, h4⟩
        · intro _; rfl
      case isFalse hin =>
        refine ⟨?_, by simp, ?_, by simp, by simp⟩
        · constructor
          · intro h; simp at h
          · rintro ⟨x', y', hx', hy', h1, h2, h3, h4⟩
            cases hx'; cases hy'
            exact absurd ⟨h1, h2, h3, h4⟩ hin
        · intro x' y' hx' hy' _
          cases hx'; cases hy'
          rfl

/-- C3 (witness): the metric contract evaluated at a concrete candidate and
target. -/
theorem c3_metrics_contract_witness :
    validRect ⟨"A", "Highlight", some [0, 0, 2, 2]⟩ = some (0, 0, 2, 2) ∧
    containsDistSpec ⟨some 1, some 1⟩
      (metricsOf ⟨some 1, some 1⟩ ⟨"A", "Highlight", some [0, 0, 2, 2]⟩ (0, 0, 2, 2))
      0 0 2 2 :=
  ⟨rfl, c3_metrics_contract ⟨some 1, some 1⟩ ⟨"A", "Highlight", some [0, 0, 2, 2]⟩
    0 0 2 2 rfl⟩

/-! ### Claim C4 -/

/-- C4 (counterexample): the unknown key `xoffset` is not ignored — because
the `/offset=([^&]+)/` regex is unanchored, `xoffset=7,8` matches as an
offset, so decoding `#page=3&xoffset=7,8` yields `offset {left 7, top 8}`
instead of the record the claim prescribes (page 3 with all other fields
absent). -/
theorem c4_counterexample :
    resolveILCore "#page=3&xoffset=7,8" =
      some ⟨3, none, some ⟨some 7, some 8⟩, none⟩ ∧
    (some (⟨3, none, some ⟨some 7, some 8⟩, none⟩ : DestRec) ≠
      some ⟨3, none, none, none⟩) := by
  refine ⟨by with_unfolding_all decide, by decide⟩

/-- C4 (amended): decoding is tolerant — a missing page key is the only
condition failing the whole decode (the result is null exactly when the
`#page=<digits>` pattern finds no match); a malformed offset or rect value
degrades to that field alone being absent (`#page=3&rect=a,b,c` yields page 3
with rect undefined, `#page=2&offset=a,b` yields page 2 with offset
undefined); an unknown key is ignored unless its text contains a recognized
`key=value` fragment (`#page=3&foo=bar` decodes as page 3 alone). -/
theorem c4_decode_tolerance :
    (∀ s : String, resolveILCore s = none ↔ matchPageIL s = none) ∧
    resolveILCore "#page=3&rect=a,b,c" = some ⟨3, none, none, none⟩ ∧
    resolveILCore "#page=2&offset=a,b" = some ⟨2, none, none, none⟩ ∧
    resolveILCore "#page=3&foo=bar" = some ⟨3, none, none, none⟩ := by
  refine ⟨?_, by with_unfolding_all decide, by with_unfolding_all decide,
    by with_unfolding_all decide⟩
  intro s
  unfold resolveILCore
  cases matchPageIL s <;> simp

/-! ### Claim C5 -/

lemma jsIndexOfAux_eq_none {p : Char → Bool} {l : List Char}
    (h : ∀ c ∈ l, p c = false) : jsIndexOfAux p l = none := by
  induction l with
  | nil => rfl
  | cons c r ih =>
    unfold jsIndexOfAux
    rw [if_neg (by simp [h c (by simp)]), ih (fun c hc => h c (by simp [hc]))]
    rfl

lemma jsIndexOfAux_cons (p : Char → Bool) (c : Char) (r : List Char) :
    jsIndexOfAux p (c :: r) =
      if p c then some 0 else (jsIndexOfAux p r).map (· + 1) := rfl

lemma jsIndexOfAux_append {p : Char → Bool} {l₁ : List Char} (l₂ : List Char)
    (h : ∀ c ∈ l₁, p c = false) :
    jsIndexOfAux p (l₁ ++ l₂) = (jsIndexOfAux p l₂).map (· + l₁.length) := by
  induction l₁ with
  | nil => simp
  | cons c r ih =>
    rw [List.cons_append, jsIndexOfAux_cons,
      if_neg (by simp [h c (by simp)]), ih (fun c hc => h c (by simp [hc]))]
    cases jsIndexOfAux p l₂ with
    | none => rfl
    | some i => simp [Nat.add_assoc]

lemma take_wikilink_mid (m : List Char) :
    ('[' :: '[' :: (m ++ [']', ']'])).take
      (('[' :: '[' :: (m ++ [']', ']'])).length - 2) = '[' :: '[' :: m := by
  have h1 : ('[' :: '[' :: (m ++ [']', ']'])).length - 2 = m.length + 2 := by
    simp [List.length_append]
  rw [h1]
  have h2 : m.length + 2 = (m.length + 1) + 1 := rfl
  rw [h2, List.take_succ_cons, List.take_succ_cons]
  rw [List.take_left m [']', ']']]

lemma wikiLinktext_concat (path sub : String) :
    wikiLinktext ("[[" ++ path ++ sub ++ "]]") = path ++ sub := by
  have hdata : ("[[" ++ path ++ sub ++ "]]").data =
      '[' :: '[' :: ((path.data ++ sub.data) ++ [']', ']']) := by
    simp [String.data_append]
  unfold wikiLinktext jsSliceNeg2
  rw [hdata]
  rw [if_neg (by simp [List.take])]
  dsimp only
  rw [take_wikilink_mid (path.data ++ sub.data)]
  show String.mk (path.data ++ sub.data) = path ++ sub
  apply String.ext
  simp [String.data_append]

lemma string_ne_empty_data {path : String} (h : path ≠ "") : path.data ≠ [] := by
  intro hd
  exact h (String.ext hd)

lemma wikiSplit_concat (path sub : String) (hne : path ≠ "")
    (hhash : ∀ c ∈ path.data, c ≠ '#')
    (hsub : sub = "" ∨ sub.data.head? = some '#') :
    wikiSplit (path ++ sub) = (path, sub) := by
  unfold wikiSplit
  have hfalse : ∀ c ∈ path.data, (fun c => decide (c = '#')) c = false := by
    intro c hc
    simp [hhash c hc]
  rcases hsub with hsub | hsub
  · subst hsub
    have hnone : jsIndexOfAux (fun c => decide (c = '#')) (path ++ "").data = none := by
      have hd : (path ++ "").data = path.data := by simp [String.data_append]
      rw [hd]
      exact jsIndexOfAux_eq_none hfalse
    rw [hnone]
    show (path ++ "", "") = (path, "")
    rw [show path ++ "" = path from String.ext (by simp)]
  · obtain ⟨tail, htail⟩ : ∃ tail, sub.data = '#' :: tail := by
      cases hsd : sub.data with
      | nil => rw [hsd] at hsub; simp at hsub
      | cons c tail =>
        rw [hsd] at hsub
        simp at hsub
        exact ⟨tail, by rw [hsub]⟩
    have hdata : (path ++ sub).data = path.data ++ sub.data := String.data_append _ _
    have hidx : jsIndexOfAux (fun c => decide (c = '#')) (path ++ sub).data =
        some path.data.length := by
      rw [hdata, jsIndexOfAux_append sub.data hfalse, htail]
      unfold jsIndexOfAux
      rw [if_pos (by simp)]
      simp
    rw [hidx]
    have hpos : 0 < path.data.length :=
      List.length_pos.mpr (string_ne_empty_data hne)
    dsimp only
    rw [if_pos hpos]
    have htake : (path ++ sub).data.take path.data.length = path.data := by
      rw [hdata]
      exact List.take_left path.data sub.data
    have hdrop : (path ++ sub).data.drop path.data.length = sub.data := by
      rw [hdata]
      exact List.drop_left path.data sub.data
    rw [htake, hdrop]

/-- C5 (counterexample): for the wikilink `[[#page=3]]` (bracketed text
starting with `#`) and a collaborator resolving every path, the code does not
split at the first `#` — it treats the whole text as the path and the subpath
as empty, resolving to page 1, while the claim's split-at-first-hash algorithm
yields page 3. -/
theorem c5_counterexample :
    resolveWikilink (fun _ => some "F") "[[#page=3]]" = some ⟨"F", 1, none, none, none⟩ ∧
    resolveWikilinkSpec (fun _ => some "F") "[[#page=3]]" = some ⟨"F", 3, none, none, none⟩ ∧
    resolveWikilink (fun _ => some "F") "[[#page=3]]" ≠
      resolveWikilinkSpec (fun _ => some "F") "[[#page=3]]" := by
  refine ⟨by with_unfolding_all decide, by with_unfolding_all decide,
    by with_unfolding_all decide⟩

/-- C5 (amended): for every wikilink whose bracketed text splits as a
non-empty hash-free path followed by a subpath (empty or starting with `#` at
a positive index), `resolveWikilink` resolves the path through the
collaborator and decodes the subpath with a default page of 1 (a `#` at index
0 is instead treated as part of the path, with an empty subpath); in
particular `[[Notes.pdf#page=5&offset=100,200,1.5]]` resolves to Notes.pdf,
page 5, offset `{left 100, top 200}`, with annotation id and rect
undefined. -/
theorem c5_wikilink_resolution :
    (∀ (f : String → Option String) (path sub : String), path ≠ "" →
      (∀ c ∈ path.data, c ≠ '#') → (sub = "" ∨ sub.data.head? = some '#') →
      resolveWikilink f ("[[" ++ path ++ sub ++ "]]") =
        (f path).map (fun file => decodeWikiSubpath file sub)) ∧
    resolveWikilink (fun p => if p = "Notes.pdf" then some "Notes.pdf" else none)
      "[[Notes.pdf#page=5&offset=100,200,1.5]]" =
      some ⟨"Notes.pdf", 5, none, some ⟨some 100, some 200⟩, none⟩ := by
  constructor
  · intro f path sub hne hhash hsub
    unfold resolveWikilink wikiFilePathOf wikiSubpathOf
    rw [wikiLinktext_concat, wikiSplit_concat path sub hne hhash hsub]
    cases f path <;> simp
  · with_unfolding_all decide

/-- C5 (witness): the amended split property applied at the concrete path
`Notes.pdf` and subpath `#page=5` with a concrete collaborator. -/
theorem c5_wikilink_resolution_witness :
    resolveWikilink (fun p => if p = "Notes.pdf" then some "Notes.pdf" else none)
      ("[[" ++ "Notes.pdf" ++ "#page=5" ++ "]]") =
      ((fun p => if p = "Notes.pdf" then some ("Notes.pdf" : String) else none) "Notes.pdf").map
        (fun file => decodeWikiSubpath file "#page=5") :=
  c5_wikilink_resolution.1 _ "Notes.pdf" "#page=5" (by decide)
    (by decide) (Or.inr rfl)

/-! ### Claim C6 -/

/-- C6: a dangling wikilink — one whose computed path component the
path-resolution collaborator cannot resolve — makes `resolveWikilink` return
null rather than raising an error. -/
theorem c6_dangling_link (f : String → Option String) (url : String)
    (h : f (wikiFilePathOf url) = none) : resolveWikilink f url = none := by
  unfold resolveWikilink
  rw [h]

/-- C6 (witness): the dangling-link behavior at a concrete wikilink with a
collaborator that resolves nothing. -/
theorem c6_dangling_link_witness :
    resolveWikilink (fun _ => none) "[[Notes.pdf#page=5]]" = none :=
  c6_dangling_link (fun _ => none) "[[Notes.pdf#page=5]]" rfl

/-! ### Claim C7 -/

/-- C7: when rectangle computation fails — no file, page number outside
`[1, pageCount]`, missing page view, text layer absent or not loaded, or no
text-layer info — the pipeline aborts (returns undefined) and the annotator is
never invoked; and every call the annotator does receive carries exactly the
merged rectangles computed for the range. -/
theorem c7_abort_before_annotator
    (annotator : String → ℤ → List (ℚ × ℚ × ℚ × ℚ) → Except String String)
    (computeRects : ℕ → ℤ → ℤ → ℤ → ℤ → List RectEntry)
    (child : ChildM) (pageNumber beginIdx beginOff endIdx endOff : ℤ) :
    ((child.file = none ∨ ¬(1 ≤ pageNumber ∧ pageNumber ≤ child.pagesCount) ∨
      child.getPage pageNumber = none ∨
      (∃ pv, child.getPage pageNumber = some pv ∧
        (pv.hasTextLayer = false ∨ truthyStr pv.loaded = false ∨
          pv.textLayerInfo = none))) →
      (addAnnotationToTextRange annotator computeRects child pageNumber
        beginIdx beginOff endIdx endOff).result = none ∧
      (addAnnotationToTextRange annotator computeRects child pageNumber
        beginIdx beginOff endIdx endOff).annotCalls = []) ∧
    (∀ call ∈ (addAnnotationToTextRange annotator computeRects child pageNumber
        beginIdx beginOff endIdx endOff).annotCalls,
      ∃ file pv tli, child.file = some file ∧
        child.getPage pageNumber = some pv ∧ pv.textLayerInfo = some tli ∧
        call = ⟨file, pageNumber,
          (computeRects tli beginIdx beginOff endIdx endOff).map RectEntry.rect⟩) := by
  unfold addAnnotationToTextRange
  cases hf : child.file with
  | none =>
    refine ⟨fun _ => ⟨rfl, rfl⟩, ?_⟩
    intro call hc
    simp at hc
  | some file =>
    dsimp only
    by_cases hr : 1 ≤ pageNumber ∧ pageNumber ≤ child.pagesCount
    · rw [if_pos hr]
      cases hp : child.getPage pageNumber with
      | none =>
        refine ⟨fun _ => ⟨rfl, rfl⟩, ?_⟩
        intro call hc
        simp at hc
      | some pv =>
        dsimp only
        cases hl : pv.hasTextLayer && truthyStr pv.loaded with
        | false =>
          rw [if_neg (by simp [hl])]
          refine ⟨fun _ => ⟨rfl, rfl⟩, ?_⟩
          intro call hc
          simp at hc
        | true =>
          rw [if_pos (by simp [hl])]
          cases ht : pv.textLayerInfo with
          | none =>
            refine ⟨fun _ => ⟨rfl, rfl⟩, ?_⟩
            intro call hc
            simp at hc
          | some tli =>
            dsimp only
            obtain ⟨hl1, hl2⟩ : pv.hasTextLayer = true ∧ truthyStr pv.loaded = true := by
              simpa using hl
            constructor
            · intro hfail
              rcases hfail with h | h | h | ⟨pv', hpv', h⟩
              · exact absurd h (by simp)
              · exact absurd hr h
              · exact absurd h (by simp)
              · have hpv'' : pv' = pv := by simpa using hpv'.symm
                subst hpv''
                rcases h with h | h | h
                · rw [hl1] at h; exact absurd h (by simp)
                · rw [hl2] at h; exact absurd h (by simp)
                · rw [ht] at h; exact absurd h (by simp)
            · intro call hc
              refine ⟨file, pv, tli, rfl, rfl, ht, ?_⟩
              cases hann : annotator file pageNumber
                  ((computeRects tli beginIdx beginOff endIdx endOff).map RectEntry.rect) with
              | ok id =>
                rw [hann] at hc
                simpa using hc
              | error msg =>
                rw [hann] at hc
                simpa using hc
    · rw [if_neg hr]
      refine ⟨fun _ => ⟨rfl, rfl⟩, ?_⟩
      intro call hc
      simp at hc

/-- C7 (witness): the abort behavior at a concrete child whose page view is
missing: the annotator is not called and the result is undefined. -/
theorem c7_abort_before_annotator_witness :
    (addAnnotationToTextRange (fun _ _ _ => Except.ok "a1") (fun _ _ _ _ _ => [])
      ⟨some "doc.pdf", 3, fun _ => none⟩ 2 0 0 0 0).result = none ∧
    (addAnnotationToTextRange (fun _ _ _ => Except.ok "a1") (fun _ _ _ _ _ => [])
      ⟨some "doc.pdf", 3, fun _ => none⟩ 2 0 0 0 0).annotCalls = [] :=
  (c7_abort_before_annotator _ _ _ _ _ _ _ _).1 (Or.inr (Or.inr (Or.inl rfl)))

/-! ### Claim C8 -/

/-- C8 (counterexample): with every precondition satisfied and an annotator
failing with an I/O error, the pipeline does not surface the error to its
caller — it catches it, shows one notice, and returns an ordinary result whose
annotation id is undefined (while still performing no registration step). -/
theorem c8_counterexample :
    addAnnotationToTextRange (fun _ _ _ => Except.error "io failure")
      (fun _ _ _ _ _ => [⟨(0, 0, 1, 1)⟩])
      ⟨some "doc.pdf", 3, fun _ => some ⟨true, some "true", some 0⟩⟩ 1 0 0 1 2 =
      ⟨some ⟨none, [(0, 0, 1, 1)]⟩, [⟨"doc.pdf", 1, [(0, 0, 1, 1)]⟩], 1⟩ ∧
    (addAnnotationToTextRange (fun _ _ _ => Except.error "io failure")
      (fun _ _ _ _ _ => [⟨(0, 0, 1, 1)⟩])
      ⟨some "doc.pdf", 3, fun _ => some ⟨true, some "true", some 0⟩⟩ 1 0 0 1 2).result ≠
      none ∧
    registrationAttempts
      (addAnnotationToTextRange (fun _ _ _ => Except.error "io failure")
        (fun _ _ _ _ _ => [⟨(0, 0, 1, 1)⟩])
        ⟨some "doc.pdf", 3, fun _ => some ⟨true, some "true", some 0⟩⟩ 1 0 0 1 2) = 0 := by
  refine ⟨by with_unfolding_all decide, ?_, by with_unfolding_all decide⟩
  intro h
  rw [show (addAnnotationToTextRange (fun _ _ _ => Except.error "io failure")
      (fun _ _ _ _ _ => [⟨(0, 0, 1, 1)⟩])
      ⟨some "doc.pdf", 3, fun _ => some ⟨true, some "true", some 0⟩⟩ 1 0 0 1 2).result =
      some ⟨none, [(0, 0, 1, 1)]⟩ from by with_unfolding_all decide] at h
  exact Option.noConfusion h

/-- C8 (amended): when the mutation interface's creation call fails with an
I/O error, the pipeline catches the error rather than surfacing it: any
returned result carries an undefined annotation id together with exactly one
user notice, and no registration step is performed. -/
theorem c8_error_swallowed
    (annotator : String → ℤ → List (ℚ × ℚ × ℚ × ℚ) → Except String String)
    (computeRects : ℕ → ℤ → ℤ → ℤ → ℤ → List RectEntry)
    (child : ChildM) (pageNumber beginIdx beginOff endIdx endOff : ℤ)
    (hfail : ∀ f pg rs, ∃ msg, annotator f pg rs = Except.error msg) :
    (∀ r, (addAnnotationToTextRange annotator computeRects child pageNumber
        beginIdx beginOff endIdx endOff).result = some r →
      r.annotId = none ∧
      (addAnnotationToTextRange annotator computeRects child pageNumber
        beginIdx beginOff endIdx endOff).noticeCount = 1) ∧
    registrationAttempts (addAnnotationToTextRange annotator computeRects child
      pageNumber beginIdx beginOff endIdx endOff) = 0 := by
  unfold addAnnotationToTextRange registrationAttempts
  cases hf : child.file with
  | none => exact ⟨fun r hr => by simp at hr, rfl⟩
  | some file =>
    dsimp only
    by_cases hr : 1 ≤ pageNumber ∧ pageNumber ≤ child.pagesCount
    · rw [if_pos hr]
      cases hp : child.getPage pageNumber with
      | none => exact ⟨fun r hr => by simp at hr, rfl⟩
      | some pv =>
        dsimp only
        cases hl : pv.hasTextLayer && truthyStr pv.loaded with
        | false =>
          rw [if_neg (by simp [hl])]
          exact ⟨fun r hr => by simp at hr, rfl⟩
        | true =>
          rw [if_pos (by simp [hl])]
          cases ht : pv.textLayerInfo with
          | none => exact ⟨fun r hr => by simp at hr, rfl⟩
          | some tli =>
            dsimp only
            obtain ⟨msg, hmsg⟩ := hfail file pageNumber
              ((computeRects tli beginIdx beginOff endIdx endOff).map RectEntry.rect)
            rw [hmsg]
            refine ⟨fun r hr => ⟨?_, rfl⟩, rfl⟩
            have : r = ⟨none, (computeRects tli beginIdx beginOff endIdx endOff).map
                RectEntry.rect⟩ := by simpa using hr.symm
            rw [this]
    · rw [if_neg hr]
      exact ⟨fun r hr => by simp at hr, rfl⟩

/-- C8 (witness): the amended behavior at a fully loaded concrete child with a
failing annotator: the registration guard stays closed and the returned
result's annotation id is undefined with one notice shown. -/
theorem c8_error_swallowed_witness :
    registrationAttempts
      (addAnnotationToTextRange (fun _ _ _ => Except.error "io failure")
        (fun _ _ _ _ _ => [⟨(0, 0, 1, 1)⟩])
        ⟨some "doc.pdf", 3, fun _ => some ⟨true, some "true", some 0⟩⟩ 1 0 0 1 2) = 0 ∧
    ((⟨none, [(0, 0, 1, 1)]⟩ : AddResult).annotId = none ∧
      (addAnnotationToTextRange (fun _ _ _ => Except.error "io failure")
        (fun _ _ _ _ _ => [⟨(0, 0, 1, 1)⟩])
        ⟨some "doc.pdf", 3, fun _ => some ⟨true, some "true", some 0⟩⟩ 1 0 0 1 2).noticeCount = 1) :=
  ⟨(c8_error_swallowed _ _ _ _ _ _ _ _ (fun _ _ _ => ⟨"io failure", rfl⟩)).2,
    (c8_error_swallowed _ _ _ _ _ _ _ _ (fun _ _ _ => ⟨"io failure", rfl⟩)).1
      ⟨none, [(0, 0, 1, 1)]⟩ (by with_unfolding_all decide)⟩

/-! ### Claim C9 -/

/-- C9 [code bug]: the claim's at-most-once guarantee fails on the code.  The
immediate path's guards hold as claimed (no id, a non-string or non-wikilink
destination, a missing layer or element, or a marker equal to `'true'` each
make it a no-op), but its registration (`registerEvents`/`onload`, in src/)
never writes the per-element marker, so on a live unmarked element the
immediate registration followed by the spec-modelled marker-guarded deferred
registration performs TWO registration side effects instead of exactly one. -/
theorem c9_double_registration :
    immediateReg none (DestM.str "[[X.pdf#page=1]]") true ⟨true, none, 0⟩ =
      ⟨true, none, 0⟩ ∧
    immediateReg (some "a1") (DestM.arr [1, 0]) true ⟨true, none, 0⟩ =
      ⟨true, none, 0⟩ ∧
    immediateReg (some "a1") (DestM.str "#page=1") true ⟨true, none, 0⟩ =
      ⟨true, none, 0⟩ ∧
    immediateReg (some "a1") (DestM.str "[[X.pdf#page=1]]") false ⟨true, none, 0⟩ =
      ⟨true, none, 0⟩ ∧
    immediateReg (some "a1") (DestM.str "[[X.pdf#page=1]]") true ⟨false, none, 0⟩ =
      ⟨false, none, 0⟩ ∧
    immediateReg (some "a1") (DestM.str "[[X.pdf#page=1]]") true ⟨true, some "true", 0⟩ =
      ⟨true, some "true", 0⟩ ∧
    immediateReg (some "a1") (DestM.str "[[X.pdf#page=1]]") true ⟨true, none, 0⟩ =
      ⟨true, none, 1⟩ ∧
    deferredReg (immediateReg (some "a1") (DestM.str "[[X.pdf#page=1]]") true
      ⟨true, none, 0⟩) = ⟨true, some "true", 2⟩ ∧
    (2 : ℕ) ≠ 1 := by
  refine ⟨by decide, by decide, by decide, by decide, by decide, by decide,
    by decide, by decide, by decide⟩

/-! ### Claim C10 -/

lemma clearHighlight_of_inv {s : HLState} (h : hlInv s) :
    clearHighlight s = ⟨none, []⟩ := by
  rcases s with ⟨cur, marks⟩
  rcases h with ⟨hc, hm⟩ | ⟨e, hc, hm⟩ <;> simp at hc hm <;> subst hc <;> subst hm
  · rfl
  · unfold clearHighlight
    simp

lemma hlStep_inv {s : HLState} (op : HLOp) (h : hlInv s) : hlInv (hlStep s op) := by
  have hc := clearHighlight_of_inv h
  cases op with
  | clear =>
    show hlInv (clearHighlight s)
    rw [hc]
    exact Or.inl ⟨rfl, rfl⟩
  | annot found =>
    show hlInv (highlightAnnot found s)
    unfold highlightAnnot
    rw [hc]
    cases found with
    | none => exact Or.inl ⟨rfl, rfl⟩
    | some e => exact Or.inr ⟨e, rfl, rfl⟩
  | loc pageOk newElem =>
    show hlInv (highlightLocation pageOk newElem s)
    unfold highlightLocation
    rw [hc]
    cases pageOk with
    | false => exact Or.inl ⟨rfl, rfl⟩
    | true => exact Or.inr ⟨newElem, rfl, rfl⟩

lemma runHL_inv (ops : List HLOp) : ∀ s, hlInv s → hlInv (ops.foldl hlStep s) := by
  induction ops with
  | nil => intro s h; exact h
  | cons op rest ih =>
    intro s h
    exact ih (hlStep s op) (hlStep_inv op h)

/-- C10: the shift-hover manager keeps at most one highlight active under
every sequence of `highlightAnnotation` / `highlightLocation` /
`clearHighlight` calls: at most one element is marked, a cleared state tracks
nothing and marks nothing (no stale reference), and a tracked element is
exactly the single marked one. -/
theorem c10_single_highlight (ops : List HLOp) :
    (runHL ops).marks.length ≤ 1 ∧
    ((runHL ops).current = none → (runHL ops).marks = []) ∧
    (∀ e, (runHL ops).current = some e → (runHL ops).marks = [e]) := by
  have h : hlInv (runHL ops) := runHL_inv ops ⟨none, []⟩ (Or.inl ⟨rfl, rfl⟩)
  rcases h with ⟨hc, hm⟩ | ⟨e, hc, hm⟩
  · refine ⟨?_, fun _ => hm, ?_⟩
    · rw [show (runHL ops).marks = [] from hm]; simp
    · intro e he
      rw [hc] at he
      exact Option.noConfusion he
  · refine ⟨?_, ?_, ?_⟩
    · rw [show (runHL ops).marks = [e] from hm]; simp
    · intro h0
      rw [hc] at h0
      exact Option.noConfusion h0
    · intro e' he'
      rw [hc] at he'
      have : e = e' := by simpa using he'
      rw [hm, this]

/-- C10 (witness): the invariant applied to a concrete operation sequence: a
highlight followed by a second highlight and a clear leaves nothing marked,
and a single successful highlight marks exactly its element. -/
theorem c10_single_highlight_witness :
    (runHL [HLOp.annot (some 7)]).marks = [7] ∧
    (runHL [HLOp.annot (some 7), HLOp.loc true 9, HLOp.clear]).current = none ∧
    (runHL [HLOp.annot (some 7), HLOp.loc true 9, HLOp.clear]).marks = [] :=
  ⟨(c10_single_highlight [HLOp.annot (some 7)]).2.2 7 rfl, rfl,
    (c10_single_highlight [HLOp.annot (some 7), HLOp.loc true 9, HLOp.clear]).2.1 rfl⟩
